import Mathlib

/-!
Verification of the paper-trading ledger core of Open-Papertrade.

The definitions below are a shallow embedding of the Python source:

* `users/market_hours.py` — market gate and symbol-market validator;
* `users/views.py`       — trade execution, limit-order submission,
  cancellation and fill, and fund transfer (the ledger mutations);
* `users/xp_service.py`  — per-trade XP award;
* `users/achievement_service.py` — achievement threshold scan.

Python `Decimal` values are embedded as `ℚ` (the concrete scenarios in the
spec use exactly representable values, and sign/ordering facts are
unaffected).  Database rows are embedded as lists; external collaborators
(price and market-status oracles, currency conversion, the system clock)
are passed in as explicit parameters, with `Option` marking a fallible
call outcome.
-/

namespace Papertrade

/-- Instant of time viewed in a given market timezone: weekday as in Python
(`0` = Monday … `6` = Sunday) and minutes since local midnight.  The
`astimezone` normalisation performed by `market_hours.py` (lines 44–49) is
collapsed into this already-localised view, since only the local weekday and
local time-of-day are ever consumed by the schedule logic. -/
structure LocalDT where
  weekday : ℕ
  minutes : ℕ
deriving DecidableEq

/-- Outcome of a successful Finnhub market-status oracle call, mirroring the
keys read by `is_market_open` (`isOpen`, `holiday`, `session`). -/
structure MarketStatus where
  isOpen : Bool
  holiday : Option String
  session : String
deriving DecidableEq

/-- Result dictionary of the market gate, mirroring the keys
`is_open`, `reason`, `market_name`, `display_hours`, `holiday`, `source`
returned by `market_hours.py`. -/
structure GateResult where
  is_open : Bool
  reason : String
  market_name : String
  display_hours : String
  holiday : Option String
  source : String
deriving DecidableEq

/-- One entry of `MARKET_SCHEDULES` (timezone kept implicit via `LocalDT`);
`openMin`/`closeMin` are the session bounds in minutes since midnight. -/
structure Schedule where
  sched_name : String
  openMin : ℕ
  closeMin : ℕ
  display_hours : String
deriving DecidableEq

/-- The `US` entry of `MARKET_SCHEDULES`: NYSE 9:30–16:00. -/
def usSchedule : Schedule :=
  { sched_name := "US (NYSE)", openMin := 9 * 60 + 30, closeMin := 16 * 60,
    display_hours := "9:30 AM - 4:00 PM ET" }

/-- The `IN` entry of `MARKET_SCHEDULES`: NSE 9:15–15:30. -/
def inSchedule : Schedule :=
  { sched_name := "India (NSE)", openMin := 9 * 60 + 15, closeMin := 15 * 60 + 30,
    display_hours := "9:15 AM - 3:30 PM IST" }

/-- `MARKET_SCHEDULES.get(market, MARKET_SCHEDULES['US'])`: the dictionary has
exactly the keys `US` and `IN`, any other market falls back to `US`. -/
def marketSchedule (market : String) : Schedule :=
  if market = "IN" then inSchedule else usSchedule

/-- ASCII embedding of Python `str.upper` on one character (every symbol,
market and side string handled by the source is ASCII). -/
def pyUpperChar (c : Char) : Char :=
  if c = 'a' then 'A' else if c = 'b' then 'B' else if c = 'c' then 'C'
  else if c = 'd' then 'D' else if c = 'e' then 'E' else if c = 'f' then 'F'
  else if c = 'g' then 'G' else if c = 'h' then 'H' else if c = 'i' then 'I'
  else if c = 'j' then 'J' else if c = 'k' then 'K' else if c = 'l' then 'L'
  else if c = 'm' then 'M' else if c = 'n' then 'N' else if c = 'o' then 'O'
  else if c = 'p' then 'P' else if c = 'q' then 'Q' else if c = 'r' then 'R'
  else if c = 's' then 'S' else if c = 't' then 'T' else if c = 'u' then 'U'
  else if c = 'v' then 'V' else if c = 'w' then 'W' else if c = 'x' then 'X'
  else if c = 'y' then 'Y' else if c = 'z' then 'Z' else c

/-- Python `s.upper()` (ASCII). -/
def pyUpper (s : String) : String := String.mk (s.data.map pyUpperChar)

/-- Python `s.endswith(suffix)`. -/
def pyEndsWith (s suffix : String) : Bool := decide (suffix.data <:+ s.data)

/-- Python `sub in s`: substring containment. -/
def pyContains (s sub : String) : Bool := decide (sub.data <:+: s.data)

/-- Python `'-USD' in symbol.upper()`: substring containment of `-USD` in the
uppercased symbol. -/
def isCryptoSymbol (symbol : String) : Bool :=
  pyContains (pyUpper symbol) "-USD"

/-- Embedding of `_is_market_open_schedule` (`market_hours.py` lines 39–81):
weekday + trading-window fallback check, taking the instant already expressed
in the schedule timezone. -/
def isMarketOpenSchedule (market : String) (now : LocalDT) : GateResult :=
  let s := marketSchedule market
  if 5 ≤ now.weekday then
    { is_open := false,
      reason := s.sched_name ++ " is closed on weekends. Trading hours: " ++
        s.display_hours ++ ", Mon-Fri.",
      market_name := s.sched_name, display_hours := s.display_hours,
      holiday := none, source := "schedule" }
  else if now.minutes < s.openMin ∨ s.closeMin ≤ now.minutes then
    { is_open := false,
      reason := s.sched_name ++ " is closed. Trading hours: " ++
        s.display_hours ++ ", Mon-Fri.",
      market_name := s.sched_name, display_hours := s.display_hours,
      holiday := none, source := "schedule" }
  else
    { is_open := true, reason := s.sched_name ++ " is open",
      market_name := s.sched_name, display_hours := s.display_hours,
      holiday := none, source := "schedule" }

/-- Embedding of `is_market_open` (`market_hours.py` lines 84–156).
`now` is the optional caller-supplied instant (already localised), `sysNow`
is the system clock read used by the schedule fallback when `now` is absent,
and `oracle` is the outcome of the Finnhub market-status call (`none` both
for a `None` return and for a raised-and-caught exception). -/
def is_market_open (market symbol : String) (now : Option LocalDT)
    (sysNow : LocalDT) (oracle : Option MarketStatus) : GateResult :=
  if isCryptoSymbol symbol then
    { is_open := true, reason := "Crypto markets are always open",
      market_name := "Crypto", display_hours := "24/7",
      holiday := none, source := "local" }
  else
    let s := marketSchedule market
    match now with
    | some n => isMarketOpenSchedule market n
    | none =>
      match oracle with
      | some st =>
        if st.isOpen then
          { is_open := true, reason := s.sched_name ++ " is open",
            market_name := s.sched_name, display_hours := s.display_hours,
            holiday := none, source := "finnhub" }
        else
          match st.holiday with
          | some hol =>
            { is_open := false,
              reason := s.sched_name ++ " is closed for " ++ hol ++
                ". Trading hours: " ++ s.display_hours ++ ", Mon-Fri.",
              market_name := s.sched_name, display_hours := s.display_hours,
              holiday := some hol, source := "finnhub" }
          | none =>
            { is_open := false,
              reason := s.sched_name ++ " is closed. Trading hours: " ++
                s.display_hours ++ ", Mon-Fri.",
              market_name := s.sched_name, display_hours := s.display_hours,
              holiday := none, source := "finnhub" }
      | none => isMarketOpenSchedule market sysNow

/-- Embedding of `is_symbol_valid_for_market` (`market_hours.py` lines
159–184): crypto is market-agnostic, `IN` requires a `.NS`/`.BO` suffix,
`US` forbids it, other markets are permissive. -/
def is_symbol_valid_for_market (symbol market : String) : Bool × String :=
  let upper := pyUpper symbol
  if isCryptoSymbol symbol then (true, "")
  else
    let isIndian := pyEndsWith upper ".NS" || pyEndsWith upper ".BO"
    if market = "IN" && !isIndian then
      (false, symbol ++ " is not available in the India (NSE/BSE) market")
    else if market = "US" && isIndian then
      (false, symbol ++ " is not available in the US market")
    else (true, "")

/-- One row of the `holdings` table (`Holding` model): unique per
(account, symbol), shares and weighted-average cost. -/
structure Holding where
  symbol : String
  hname : String
  shares : ℚ
  avg_cost : ℚ
  currency : String
deriving DecidableEq

/-- One row of the `limit_orders` table (`LimitOrder` model).  The UUID
primary key is embedded as a `ℕ` issued by the per-state counter. -/
structure Order where
  oid : ℕ
  symbol : String
  oname : String
  trade_type : String
  shares : ℚ
  limit_price : ℚ
  currency : String
  status : String
  filled : Bool
deriving DecidableEq

/-- One row of the append-only `trades` table (`Trade` model). -/
structure TradeRec where
  symbol : String
  tname : String
  trade_type : String
  shares : ℚ
  price : ℚ
  total : ℚ
  currency : String
deriving DecidableEq

/-- Machine-discriminable kind of each rejected-response branch of the
views, one constructor per distinct error response in the source. -/
inductive ApiError where
  | invalidParams
  | marketClosed
  | invalidMarket (msg : String)
  | insufficientFunds
  | noHoldings (symbol : String)
  | insufficientShares
  | orderNotFound
  | priceConditionNotMet (side : String)
  | invalidPrice
  | invalidAmount
  | recipientRequired
  | selfTransfer
  | userNotFound
  | notFriends
  | conversionFailed
deriving DecidableEq

/-- Outcome of one request handler: success or a discriminated rejection. -/
inductive ApiResult where
  | ok
  | err (e : ApiError)
deriving DecidableEq

/-- State of one account as touched by the trading views: buying power, the
holdings rows, the limit-order rows, the trade log, and the id counter that
stands in for UUID generation. -/
structure AccountState where
  buying_power : ℚ
  holdings : List Holding
  orders : List Order
  trades : List TradeRec
  next_oid : ℕ
deriving DecidableEq

/-- `Holding.objects.get(user=user, symbol=symbol)`: first row with the
given symbol (the `(user, symbol)` pair is unique in the schema). -/
def findHolding (st : AccountState) (symbol : String) : Option Holding :=
  st.holdings.find? (fun h => h.symbol = symbol)

/-- Replace the holding row keyed by `symbol` with `h` (an ORM `save()` on
a fetched row). -/
def replaceHolding (st : AccountState) (symbol : String) (h : Holding) :
    AccountState :=
  { st with holdings := st.holdings.map (fun x => if x.symbol = symbol then h else x) }

/-- Delete the holding row keyed by `symbol` (`holding.delete()`). -/
def deleteHolding (st : AccountState) (symbol : String) : AccountState :=
  { st with holdings := st.holdings.filter (fun x => ¬ x.symbol = symbol) }

/-- Append a `Trade` row (`Trade.objects.create`, with
`total = shares * price` as passed by both call sites). -/
def recordTrade (st : AccountState) (symbol tname ttype : String)
    (shares price : ℚ) (currency : String) : AccountState :=
  { st with trades := st.trades ++
      [{ symbol := symbol, tname := tname, trade_type := ttype,
         shares := shares, price := price, total := shares * price,
         currency := currency }] }

/-- The BUY holding mutation shared by `ExecuteTradeView.post` (lines
363–382) and `FillLimitOrderView.post` (lines 735–752): `get_or_create`
followed by weighted-average update or fresh initialisation. -/
def applyBuyHolding (st : AccountState) (symbol hname : String)
    (shares price : ℚ) (currency : String) : AccountState :=
  match findHolding st symbol with
  | some h =>
    let new_value := h.shares * h.avg_cost + shares * price
    let new_shares := h.shares + shares
    replaceHolding st symbol
      { h with avg_cost := new_value / new_shares, shares := new_shares }
  | none =>
    { st with holdings := st.holdings ++
        [{ symbol := symbol, hname := hname, shares := shares,
           avg_cost := price, currency := currency }] }

/-- The SELL holding mutation shared by `ExecuteTradeView.post` (lines
404–409) and `FillLimitOrderView.post` (lines 784–789): decrement, delete
the row when the share count reaches exactly zero.  The caller has already
verified the holding exists and has enough shares. -/
def applySellHolding (st : AccountState) (symbol : String) (shares : ℚ) :
    AccountState :=
  match findHolding st symbol with
  | some h =>
    let ns := h.shares - shares
    if ns = 0 then deleteHolding st symbol
    else replaceHolding st symbol { h with shares := ns }
  | none => st

/-- Embedding of `ExecuteTradeView.post` (`views.py` lines 310–452), up to
the ledger commit (achievement/XP side effects do not touch buying power,
holdings, orders or trades and are embedded separately).  `userMarket` is
the settings-derived market, `gateOracle`/`sysNow` feed the market gate as
in `is_market_open`. -/
def executeTrade (st : AccountState) (userMarket : String)
    (gateOracle : Option MarketStatus) (sysNow : LocalDT)
    (symbol0 tname ttype0 : String) (shares price : ℚ) (currency : String) :
    ApiResult × AccountState :=
  let symbol := pyUpper symbol0
  let ttype := pyUpper ttype0
  if symbol = "" ∨ (ttype ≠ "BUY" ∧ ttype ≠ "SELL") ∨ shares ≤ 0 ∨ price ≤ 0 then
    (.err .invalidParams, st)
  else if ¬ (is_market_open userMarket symbol none sysNow gateOracle).is_open then
    (.err .marketClosed, st)
  else if ttype = "BUY" ∧ ¬ (is_symbol_valid_for_market symbol userMarket).1 then
    (.err (.invalidMarket (is_symbol_valid_for_market symbol userMarket).2), st)
  else
    let total := shares * price
    if ttype = "BUY" then
      if total > st.buying_power then (.err .insufficientFunds, st)
      else
        let st1 := { st with buying_power := st.buying_power - total }
        let st2 := applyBuyHolding st1 symbol tname shares price currency
        (.ok, recordTrade st2 symbol tname ttype shares price currency)
    else
      match findHolding st symbol with
      | none => (.err (.noHoldings symbol), st)
      | some h =>
        if shares > h.shares then (.err .insufficientShares, st)
        else
          let st1 := { st with buying_power := st.buying_power + total }
          let st2 := applySellHolding st1 symbol shares
          (.ok, recordTrade st2 symbol tname ttype shares price currency)

/-- Embedding of `LimitOrdersView.post` (`views.py` lines 608–665): submit
a limit order, reserving cash for BUY and verifying share cover for SELL. -/
def submitLimitOrder (st : AccountState) (symbol0 oname ttype0 : String)
    (shares limit_price : ℚ) (currency : String) : ApiResult × AccountState :=
  let symbol := pyUpper symbol0
  let ttype := pyUpper ttype0
  if symbol = "" ∨ (ttype ≠ "BUY" ∧ ttype ≠ "SELL") ∨ shares ≤ 0 ∨ limit_price ≤ 0 then
    (.err .invalidParams, st)
  else
    let total := shares * limit_price
    let newOrder : Order :=
      { oid := st.next_oid, symbol := symbol, oname := oname,
        trade_type := ttype, shares := shares, limit_price := limit_price,
        currency := currency, status := "PENDING", filled := false }
    if ttype = "BUY" then
      if total > st.buying_power then (.err .insufficientFunds, st)
      else
        (.ok, { st with buying_power := st.buying_power - total,
                        orders := st.orders ++ [newOrder],
                        next_oid := st.next_oid + 1 })
    else
      match findHolding st symbol with
      | none => (.err (.noHoldings symbol), st)
      | some h =>
        if shares > h.shares then (.err .insufficientShares, st)
        else
          (.ok, { st with orders := st.orders ++ [newOrder],
                          next_oid := st.next_oid + 1 })

/-- `LimitOrder.objects.get(id=order_id, user=user, status='PENDING')`:
lookup restricted to PENDING rows. -/
def findPendingOrder (st : AccountState) (oid : ℕ) : Option Order :=
  st.orders.find? (fun o => decide (o.oid = oid ∧ o.status = "PENDING"))

/-- Set the status of the order row with the given id (`order.save()` after
assigning `order.status`). -/
def setOrderStatus (st : AccountState) (oid : ℕ) (s : String) : AccountState :=
  { st with orders :=
      st.orders.map (fun o => if o.oid = oid then { o with status := s } else o) }

/-- Set status `FILLED` and the `filled_at` stamp on the order row. -/
def setOrderFilled (st : AccountState) (oid : ℕ) : AccountState :=
  let upd : Order → Order :=
    fun o => if o.oid = oid then { o with status := "FILLED", filled := true } else o
  { st with orders := st.orders.map upd }

/-- Embedding of `CancelLimitOrderView.delete` (`views.py` lines 671–694):
only a PENDING order can be cancelled; BUY cancellation refunds the amount
reserved at submission. -/
def cancelLimitOrder (st : AccountState) (oid : ℕ) : ApiResult × AccountState :=
  match findPendingOrder st oid with
  | none => (.err .orderNotFound, st)
  | some o =>
    let st1 :=
      if o.trade_type = "BUY" then
        { st with buying_power := st.buying_power + o.shares * o.limit_price }
      else st
    (.ok, setOrderStatus st1 oid "CANCELLED")

/-- Embedding of `FillLimitOrderView.post` (`views.py` lines 700–836), up to
the ledger commit: price-condition re-validation, BUY fill with
price-improvement refund, SELL fill with share re-verification that cancels
the order on a detected race. -/
def fillLimitOrder (st : AccountState) (oid : ℕ) (current_price : ℚ) :
    ApiResult × AccountState :=
  if current_price ≤ 0 then (.err .invalidPrice, st)
  else
    match findPendingOrder st oid with
    | none => (.err .orderNotFound, st)
    | some o =>
      if o.trade_type = "BUY" ∧ current_price > o.limit_price then
        (.err (.priceConditionNotMet "BUY"), st)
      else if o.trade_type = "SELL" ∧ current_price < o.limit_price then
        (.err (.priceConditionNotMet "SELL"), st)
      else
        let total := o.shares * current_price
        if o.trade_type = "BUY" then
          let st1 := applyBuyHolding st o.symbol o.oname o.shares current_price o.currency
          let reserved := o.shares * o.limit_price
          let st2 :=
            if total < reserved then
              { st1 with buying_power := st1.buying_power + (reserved - total) }
            else st1
          let st3 := recordTrade st2 o.symbol o.oname o.trade_type o.shares
            current_price o.currency
          (.ok, setOrderFilled st3 oid)
        else
          match findHolding st o.symbol with
          | none => (.err (.noHoldings o.symbol), setOrderStatus st oid "CANCELLED")
          | some h =>
            if o.shares > h.shares then
              (.err .insufficientShares, setOrderStatus st oid "CANCELLED")
            else
              let st1 := { st with buying_power := st.buying_power + total }
              let st2 := applySellHolding st1 o.symbol o.shares
              let st3 := recordTrade st2 o.symbol o.oname o.trade_type o.shares
                current_price o.currency
              (.ok, setOrderFilled st3 oid)

/-- One row of the `transfers` table (`Transfer` model): USD-equivalent
canonical amount plus sender- and recipient-side display amounts. -/
structure TransferRec where
  amount : ℚ
  display_amount : ℚ
  currency : String
  recipient_currency : String
  recipient_display_amount : ℚ
deriving DecidableEq

/-- The slice of state touched by `TransferFundsView.post`: the two buying
powers and the append-only transfer log. -/
structure TransferState where
  sender_bp : ℚ
  recipient_bp : ℚ
  transfers : List TransferRec
deriving DecidableEq

/-- Embedding of `TransferFundsView.post` (`views.py` lines 842–925).
External collaborators appear as parameters: `recipientExists` is the
outcome of the username lookup, `isFriend` of the accepted-friendship
query, and `convertToRecipient` / `convertToUSD` are the outcomes of the
two `CurrencyExchangeService.convert` calls (`none` when the call raises,
which the first call site turns into a hard 500 failure and the second
absorbs with the `usd_amount = amount` fallback). -/
def transferFunds (st : TransferState) (senderUsername toUsername : String)
    (amount : ℚ) (recipientExists isFriend : Bool)
    (senderCurrency recipientCurrency : String)
    (convertToRecipient convertToUSD : Option ℚ) : ApiResult × TransferState :=
  if amount ≤ 0 then (.err .invalidAmount, st)
  else if toUsername = "" then (.err .recipientRequired, st)
  else if senderUsername = toUsername then (.err .selfTransfer, st)
  else if ¬ recipientExists then (.err .userNotFound, st)
  else if ¬ isFriend then (.err .notFriends, st)
  else if amount > st.sender_bp then (.err .insufficientFunds, st)
  else
    match convertToRecipient with
    | none => (.err .conversionFailed, st)
    | some recipientAmount =>
      let usdAmount := convertToUSD.getD amount
      (.ok, { sender_bp := st.sender_bp - amount,
              recipient_bp := st.recipient_bp + recipientAmount,
              transfers := st.transfers ++
                [{ amount := usdAmount, display_amount := amount,
                   currency := senderCurrency,
                   recipient_currency := recipientCurrency,
                   recipient_display_amount := recipientAmount }] })

/-- Embedding of `award_trade_xp` (`xp_service.py` lines 46–73), as a pure
function of the database reads it performs: `trade_count` is
`Trade.objects.filter(user=user).count()` (taken after the new trade row was
inserted) and `holdings_count` is `Holding.objects.filter(user=user).count()`.
Returns the `xp_gained` total. -/
def award_trade_xp (trade_count holdings_count : ℕ) (trade_type : String)
    (sell_price avg_buy_price : Option ℚ) : ℕ :=
  let base := 25
  let withFirst := base + (if trade_count = 1 then 75 else 0)
  let withSell := withFirst +
    (match sell_price, avg_buy_price with
     | some sp, some abp => if trade_type = "SELL" ∧ sp > abp then 50 else 0
     | _, _ => 0)
  withSell + (if holdings_count = 5 then 150
              else if holdings_count = 10 then 250 else 0)

/-- Spec-side restatement of the milestone rule: a bonus exactly at 5 and
exactly at 10 distinct holdings, nothing otherwise. -/
def milestoneBonus (holdings_count : ℕ) : ℕ :=
  if holdings_count = 5 then 150
  else if holdings_count = 10 then 250 else 0

/-- One row of the `achievements` definitions table as read by the scan:
id, requirement type and threshold. -/
structure Achievement where
  aid : ℕ
  requirement_type : String
  requirement_value : ℚ
deriving DecidableEq

/-- Account state as read by `check_achievements`: the four counters it can
compute from the database (trade rows, holding rows, watchlist rows,
realized profit), the global achievement definitions table, and the ids
already present in `UserAchievement` rows for this account. -/
structure GamState where
  trades_count : ℕ
  holdings_count : ℕ
  watchlist_count : ℕ
  profit_amount : ℚ
  achievements : List Achievement
  unlocked : List ℕ
deriving DecidableEq

/-- `counts.get(achievement.requirement_type, 0)`: the counter selected by a
requirement type, `0` for an unknown type (and `special` never reaches this
point). -/
def countFor (st : GamState) (rtype : String) : ℚ :=
  if rtype = "trades_count" then st.trades_count
  else if rtype = "holdings_count" then st.holdings_count
  else if rtype = "watchlist_count" then st.watchlist_count
  else if rtype = "profit_amount" then st.profit_amount
  else 0

/-- Candidate filter of `check_achievements` (`achievement_service.py`
lines 17–27): achievements neither already unlocked nor `special`. -/
def achievementCandidates (st : GamState) : List Achievement :=
  st.achievements.filter
    (fun a => decide (a.aid ∉ st.unlocked ∧ a.requirement_type ≠ "special"))

/-- Embedding of `check_achievements` (`achievement_service.py` lines
11–65): scan the candidates against the counters, return the newly earned
achievements and insert their ids (the `bulk_create` with
`ignore_conflicts=True`). -/
def check_achievements (st : GamState) : List Achievement × GamState :=
  let newly := (achievementCandidates st).filter
    (fun a => decide (a.requirement_value ≤ countFor st a.requirement_type))
  (newly, { st with unlocked := st.unlocked ++ newly.map (fun a => a.aid) })

/-- One ledger operation of the trade/order core, carrying the external
inputs its request handler consumes. -/
inductive Op where
  | market (userMarket : String) (gateOracle : Option MarketStatus)
      (sysNow : LocalDT) (symbol tname ttype : String) (shares price : ℚ)
      (currency : String)
  | submit (symbol oname ttype : String) (shares limit_price : ℚ)
      (currency : String)
  | cancel (oid : ℕ)
  | fill (oid : ℕ) (current_price : ℚ)

/-- Apply one operation, keeping the committed state whether the request
succeeded or was rejected. -/
def applyOp (st : AccountState) : Op → AccountState
  | .market um go sn s n t sh p c => (executeTrade st um go sn s n t sh p c).2
  | .submit s n t sh lp c => (submitLimitOrder st s n t sh lp c).2
  | .cancel oid => (cancelLimitOrder st oid).2
  | .fill oid cp => (fillLimitOrder st oid cp).2

/-- Run a sequence of operations. -/
def runOps (st : AccountState) (ops : List Op) : AccountState :=
  ops.foldl applyOp st

/-- Fresh account: initial buying power, no rows. -/
def initState (b : ℚ) : AccountState :=
  { buying_power := b, holdings := [], orders := [], trades := [], next_oid := 0 }

/-- Ledger invariant: non-negative cash, strictly positive share counts on
every persisted holding row, and positive share/price fields on every
limit-order row. -/
def Inv (st : AccountState) : Prop :=
  0 ≤ st.buying_power ∧
  (∀ h ∈ st.holdings, 0 < h.shares) ∧
  (∀ o ∈ st.orders, 0 < o.shares ∧ 0 < o.limit_price)

/-- A Monday 10:00 local-time instant (inside both trading windows). -/
def mondayOpen : LocalDT := ⟨0, 600⟩

/-- A Saturday 12:00 local-time instant. -/
def saturdayNoon : LocalDT := ⟨5, 720⟩

/-- Spec scenario, step 1: BUY 10 AAPL @ 150 from a fresh 100000 account. -/
def c2Buy1 : ApiResult × AccountState :=
  executeTrade (initState 100000) "US" none mondayOpen "AAPL" "Apple" "BUY" 10 150 "USD"

/-- Spec scenario, step 2: BUY 10 AAPL @ 170. -/
def c2Buy2 : ApiResult × AccountState :=
  executeTrade c2Buy1.2 "US" none mondayOpen "AAPL" "Apple" "BUY" 10 170 "USD"

/-- Spec scenario, step 3: SELL 15 AAPL @ 180. -/
def c2Sell : ApiResult × AccountState :=
  executeTrade c2Buy2.2 "US" none mondayOpen "AAPL" "Apple" "SELL" 15 180 "USD"

/-- Account with a PENDING SELL limit order for 5 AAPL but no AAPL holding
(the shares were sold after submission: the detected-race configuration). -/
def raceSellState : AccountState :=
  { buying_power := 500, holdings := [],
    orders := [⟨0, "AAPL", "Apple", "SELL", 5, 100, "USD", "PENDING", false⟩],
    trades := [], next_oid := 1 }

/-- Account with one FILLED order (id 0) and one PENDING BUY order (id 1). -/
def termOrdersState : AccountState :=
  { buying_power := 1000, holdings := [⟨"MSFT", "Microsoft", 3, 100, "USD"⟩],
    orders := [⟨0, "AAPL", "Apple", "BUY", 2, 50, "USD", "FILLED", true⟩,
               ⟨1, "MSFT", "Microsoft", "BUY", 4, 25, "USD", "PENDING", false⟩],
    trades := [], next_oid := 2 }

/-- Two-account transfer fixture: sender holds 100, recipient 50. -/
def transferState0 : TransferState :=
  { sender_bp := 100, recipient_bp := 50, transfers := [] }

/-! Helper lemmas: field preservation of the small ledger mutators, literal
evaluations used to discharge concrete side conditions, and the association
list facts behind holding updates. -/

@[simp] theorem replaceHolding_buying_power (st : AccountState) (sym : String) (h : Holding) :
    (replaceHolding st sym h).buying_power = st.buying_power := rfl

@[simp] theorem replaceHolding_orders (st : AccountState) (sym : String) (h : Holding) :
    (replaceHolding st sym h).orders = st.orders := rfl

@[simp] theorem deleteHolding_buying_power (st : AccountState) (sym : String) :
    (deleteHolding st sym).buying_power = st.buying_power := rfl

@[simp] theorem deleteHolding_orders (st : AccountState) (sym : String) :
    (deleteHolding st sym).orders = st.orders := rfl

@[simp] theorem recordTrade_buying_power (st : AccountState) (a b c : String) (d e : ℚ)
    (f : String) : (recordTrade st a b c d e f).buying_power = st.buying_power := rfl

@[simp] theorem recordTrade_holdings (st : AccountState) (a b c : String) (d e : ℚ)
    (f : String) : (recordTrade st a b c d e f).holdings = st.holdings := rfl

@[simp] theorem recordTrade_orders (st : AccountState) (a b c : String) (d e : ℚ)
    (f : String) : (recordTrade st a b c d e f).orders = st.orders := rfl

@[simp] theorem applyBuyHolding_buying_power (st : AccountState) (sym nm : String)
    (sh pr : ℚ) (cur : String) :
    (applyBuyHolding st sym nm sh pr cur).buying_power = st.buying_power := by
  unfold applyBuyHolding
  cases findHolding st sym <;> rfl

@[simp] theorem applyBuyHolding_orders (st : AccountState) (sym nm : String)
    (sh pr : ℚ) (cur : String) :
    (applyBuyHolding st sym nm sh pr cur).orders = st.orders := by
  unfold applyBuyHolding
  cases findHolding st sym <;> rfl

@[simp] theorem applySellHolding_buying_power (st : AccountState) (sym : String) (sh : ℚ) :
    (applySellHolding st sym sh).buying_power = st.buying_power := by
  unfold applySellHolding
  cases findHolding st sym with
  | none => rfl
  | some h => dsimp only; split <;> rfl

@[simp] theorem applySellHolding_orders (st : AccountState) (sym : String) (sh : ℚ) :
    (applySellHolding st sym sh).orders = st.orders := by
  unfold applySellHolding
  cases findHolding st sym with
  | none => rfl
  | some h => dsimp only; split <;> rfl

@[simp] theorem setOrderStatus_buying_power (st : AccountState) (oid : ℕ) (s : String) :
    (setOrderStatus st oid s).buying_power = st.buying_power := rfl

@[simp] theorem setOrderStatus_holdings (st : AccountState) (oid : ℕ) (s : String) :
    (setOrderStatus st oid s).holdings = st.holdings := rfl

@[simp] theorem setOrderStatus_trades (st : AccountState) (oid : ℕ) (s : String) :
    (setOrderStatus st oid s).trades = st.trades := rfl

@[simp] theorem setOrderFilled_buying_power (st : AccountState) (oid : ℕ) :
    (setOrderFilled st oid).buying_power = st.buying_power := rfl

@[simp] theorem setOrderFilled_holdings (st : AccountState) (oid : ℕ) :
    (setOrderFilled st oid).holdings = st.holdings := rfl

theorem pyUpper_BUY : pyUpper "BUY" = "BUY" := by decide

theorem pyUpper_SELL : pyUpper "SELL" = "SELL" := by decide

theorem pyUpper_AAPL : pyUpper "AAPL" = "AAPL" := by decide

theorem gate_US_AAPL_schedule_open :
    is_market_open "US" "AAPL" none mondayOpen none =
      { is_open := true, reason := "US (NYSE) is open", market_name := "US (NYSE)",
        display_hours := "9:30 AM - 4:00 PM ET", holiday := none, source := "schedule" } := by
  decide

theorem valid_AAPL_US : is_symbol_valid_for_market "AAPL" "US" = (true, "") := by decide

theorem find?_update (l : List Holding) (sym : String) (newh : Holding)
    (hsym : newh.symbol = sym)
    (hf : (l.find? (fun h => decide (h.symbol = sym))).isSome) :
    (l.map (fun x => if x.symbol = sym then newh else x)).find?
      (fun h => decide (h.symbol = sym)) = some newh := by
  induction l with
  | nil => simp at hf
  | cons a t ih =>
    by_cases ha : a.symbol = sym
    · simp only [List.map_cons, if_pos ha]
      exact List.find?_cons_of_pos _ (by simp [hsym])
    · simp only [List.map_cons, if_neg ha]
      rw [List.find?_cons_of_neg _ (by simp [ha])]
      rw [List.find?_cons_of_neg _ (by simp [ha])] at hf
      exact ih hf

theorem findHolding_replaceHolding (st : AccountState) (sym : String) (newh : Holding)
    (hsym : newh.symbol = sym) (hf : (findHolding st sym).isSome) :
    findHolding (replaceHolding st sym newh) sym = some newh :=
  find?_update st.holdings sym newh hsym hf

theorem findHolding_symbol (st : AccountState) (sym : String) (h : Holding)
    (hf : findHolding st sym = some h) : h.symbol = sym := by
  have := List.find?_some hf
  simpa using this

theorem findHolding_mem (st : AccountState) (sym : String) (h : Holding)
    (hf : findHolding st sym = some h) : h ∈ st.holdings :=
  List.mem_of_find?_eq_some hf

theorem findHolding_applyBuyHolding (st : AccountState) (sym nm : String)
    (sh pr : ℚ) (cur : String) (h : Holding) (hf : findHolding st sym = some h) :
    findHolding (applyBuyHolding st sym nm sh pr cur) sym =
      some { h with avg_cost := (h.shares * h.avg_cost + sh * pr) / (h.shares + sh),
                    shares := h.shares + sh } := by
  unfold applyBuyHolding
  rw [hf]
  exact findHolding_replaceHolding _ _ _ (findHolding_symbol st sym h hf) (by rw [hf]; rfl)

theorem findHolding_applySellHolding (st : AccountState) (sym : String)
    (sh : ℚ) (h : Holding) (hf : findHolding st sym = some h)
    (hne : ¬ h.shares - sh = 0) :
    findHolding (applySellHolding st sym sh) sym =
      some { h with shares := h.shares - sh } := by
  unfold applySellHolding
  rw [hf]
  dsimp only
  rw [if_neg hne]
  exact findHolding_replaceHolding _ _ _ (findHolding_symbol st sym h hf) (by rw [hf]; rfl)

theorem c2Buy1_eval :
    c2Buy1 = (.ok,
      { buying_power := 98500,
        holdings := [⟨"AAPL", "Apple", 10, 150, "USD"⟩],
        orders := [],
        trades := [⟨"AAPL", "Apple", "BUY", 10, 150, 1500, "USD"⟩],
        next_oid := 0 }) := by
  norm_num [c2Buy1, executeTrade, initState, pyUpper_AAPL, pyUpper_BUY,
    gate_US_AAPL_schedule_open, valid_AAPL_US, applyBuyHolding, findHolding,
    recordTrade, eq_false (show "AAPL" ≠ "" by decide)]

theorem c2Buy2_eval :
    c2Buy2 = (.ok,
      { buying_power := 96800,
        holdings := [⟨"AAPL", "Apple", 20, 160, "USD"⟩],
        orders := [],
        trades := [⟨"AAPL", "Apple", "BUY", 10, 150, 1500, "USD"⟩,
                   ⟨"AAPL", "Apple", "BUY", 10, 170, 1700, "USD"⟩],
        next_oid := 0 }) := by
  rw [c2Buy2, c2Buy1_eval]
  norm_num [executeTrade, pyUpper_AAPL, pyUpper_BUY,
    gate_US_AAPL_schedule_open, valid_AAPL_US, applyBuyHolding, findHolding,
    replaceHolding, recordTrade, eq_false (show "AAPL" ≠ "" by decide)]

theorem c2Sell_eval :
    c2Sell = (.ok,
      { buying_power := 99500,
        holdings := [⟨"AAPL", "Apple", 5, 160, "USD"⟩],
        orders := [],
        trades := [⟨"AAPL", "Apple", "BUY", 10, 150, 1500, "USD"⟩,
                   ⟨"AAPL", "Apple", "BUY", 10, 170, 1700, "USD"⟩,
                   ⟨"AAPL", "Apple", "SELL", 15, 180, 2700, "USD"⟩],
        next_oid := 0 }) := by
  rw [c2Sell, c2Buy2_eval]
  norm_num [executeTrade, pyUpper_AAPL, pyUpper_SELL,
    gate_US_AAPL_schedule_open, applySellHolding, findHolding,
    replaceHolding, deleteHolding, recordTrade,
    eq_false (show "AAPL" ≠ "" by decide),
    eq_false (show ("SELL" : String) ≠ "BUY" by decide)]

theorem applyBuyHolding_shares_pos (st : AccountState) (sym nm : String) (sh pr : ℚ)
    (cur : String) (hsh : 0 < sh)
    (hall : ∀ h ∈ st.holdings, 0 < h.shares) :
    ∀ h ∈ (applyBuyHolding st sym nm sh pr cur).holdings, 0 < h.shares := by
  intro h hm
  unfold applyBuyHolding at hm
  cases hf : findHolding st sym with
  | none =>
    rw [hf] at hm
    rcases List.mem_append.mp hm with h1 | h2
    · exact hall _ h1
    · rcases List.mem_singleton.mp h2 with rfl
      exact hsh
  | some h0 =>
    rw [hf] at hm
    dsimp only [replaceHolding] at hm
    rcases List.mem_map.mp hm with ⟨x, hx, hfx⟩
    by_cases hxs : x.symbol = sym
    · rw [if_pos hxs] at hfx
      rcases hfx with rfl
      have := hall _ (findHolding_mem st sym h0 hf)
      dsimp only
      linarith
    · rw [if_neg hxs] at hfx
      rcases hfx with rfl
      exact hall _ hx

theorem applySellHolding_shares_pos (st : AccountState) (sym : String) (sh : ℚ)
    (h0 : Holding) (hf : findHolding st sym = some h0) (hle : sh ≤ h0.shares)
    (hall : ∀ h ∈ st.holdings, 0 < h.shares) :
    ∀ h ∈ (applySellHolding st sym sh).holdings, 0 < h.shares := by
  intro h hm
  unfold applySellHolding at hm
  rw [hf] at hm
  dsimp only at hm
  by_cases hz : h0.shares - sh = 0
  · rw [if_pos hz] at hm
    dsimp only [deleteHolding] at hm
    exact hall _ (List.mem_of_mem_filter hm)
  · rw [if_neg hz] at hm
    dsimp only [replaceHolding] at hm
    rcases List.mem_map.mp hm with ⟨x, hx, hfx⟩
    by_cases hxs : x.symbol = sym
    · rw [if_pos hxs] at hfx
      rcases hfx with rfl
      dsimp only
      rcases lt_or_eq_of_le (sub_nonneg.mpr hle) with hlt | heq
      · exact hlt
      · exact absurd heq.symm hz
    · rw [if_neg hxs] at hfx
      rcases hfx with rfl
      exact hall _ hx

theorem setOrderStatus_orders_pos (st : AccountState) (oid : ℕ) (s : String)
    (hall : ∀ o ∈ st.orders, 0 < o.shares ∧ 0 < o.limit_price) :
    ∀ o ∈ (setOrderStatus st oid s).orders, 0 < o.shares ∧ 0 < o.limit_price := by
  intro o hm
  dsimp only [setOrderStatus] at hm
  rcases List.mem_map.mp hm with ⟨x, hx, hfx⟩
  by_cases hxo : x.oid = oid
  · rw [if_pos hxo] at hfx
    rcases hfx with rfl
    exact hall x hx
  · rw [if_neg hxo] at hfx
    rcases hfx with rfl
    exact hall x hx

theorem setOrderFilled_orders_pos (st : AccountState) (oid : ℕ)
    (hall : ∀ o ∈ st.orders, 0 < o.shares ∧ 0 < o.limit_price) :
    ∀ o ∈ (setOrderFilled st oid).orders, 0 < o.shares ∧ 0 < o.limit_price := by
  intro o hm
  dsimp only [setOrderFilled] at hm
  rcases List.mem_map.mp hm with ⟨x, hx, hfx⟩
  by_cases hxo : x.oid = oid
  · rw [if_pos hxo] at hfx
    rcases hfx with rfl
    exact hall x hx
  · rw [if_neg hxo] at hfx
    rcases hfx with rfl
    exact hall x hx

theorem findPendingOrder_mem (st : AccountState) (oid : ℕ) (o : Order)
    (hf : findPendingOrder st oid = some o) : o ∈ st.orders :=
  List.mem_of_find?_eq_some hf

theorem findPendingOrder_props (st : AccountState) (oid : ℕ) (o : Order)
    (hf : findPendingOrder st oid = some o) : o.oid = oid ∧ o.status = "PENDING" := by
  have := List.find?_some hf
  simpa using this

theorem inv_executeTrade (st : AccountState) (um : String) (go : Option MarketStatus)
    (sn : LocalDT) (sym nm tt : String) (sh pr : ℚ) (cur : String) (h : Inv st) :
    Inv (executeTrade st um go sn sym nm tt sh pr cur).2 := by
  obtain ⟨hbp, hh, ho⟩ := h
  unfold executeTrade
  by_cases hv : (pyUpper sym = "" ∨ (¬ pyUpper tt = "BUY" ∧ ¬ pyUpper tt = "SELL") ∨
      sh ≤ 0 ∨ pr ≤ 0)
  · rw [if_pos hv]; exact ⟨hbp, hh, ho⟩
  · rw [if_neg hv]
    have hsh : 0 < sh := lt_of_not_le fun hle => hv (Or.inr (Or.inr (Or.inl hle)))
    have hpr : 0 < pr := lt_of_not_le fun hle => hv (Or.inr (Or.inr (Or.inr hle)))
    by_cases hg : ¬ (is_market_open um (pyUpper sym) none sn go).is_open = true
    · rw [if_pos hg]; exact ⟨hbp, hh, ho⟩
    · rw [if_neg hg]
      by_cases hm : (pyUpper tt = "BUY" ∧
          ¬ (is_symbol_valid_for_market (pyUpper sym) um).1 = true)
      · rw [if_pos hm]; exact ⟨hbp, hh, ho⟩
      · rw [if_neg hm]
        dsimp only
        by_cases htt : pyUpper tt = "BUY"
        · rw [if_pos htt]
          by_cases hf : sh * pr > st.buying_power
          · rw [if_pos hf]; exact ⟨hbp, hh, ho⟩
          · rw [if_neg hf]
            refine ⟨?_, ?_, ?_⟩
            · simp only [recordTrade_buying_power, applyBuyHolding_buying_power]
              have := le_of_not_lt hf
              linarith
            · simp only [recordTrade_holdings]
              exact applyBuyHolding_shares_pos _ _ _ _ _ _ hsh hh
            · simp only [recordTrade_orders, applyBuyHolding_orders]
              exact ho
        · rw [if_neg htt]
          cases hfind : findHolding st (pyUpper sym) with
          | none => exact ⟨hbp, hh, ho⟩
          | some h0 =>
            dsimp only
            by_cases hins : sh > h0.shares
            · rw [if_pos hins]; exact ⟨hbp, hh, ho⟩
            · rw [if_neg hins]
              refine ⟨?_, ?_, ?_⟩
              · simp only [recordTrade_buying_power, applySellHolding_buying_power]
                have : 0 ≤ sh * pr := mul_nonneg hsh.le hpr.le
                linarith
              · simp only [recordTrade_holdings]
                exact applySellHolding_shares_pos _ _ _ h0 hfind (le_of_not_lt hins) hh
              · simp only [recordTrade_orders, applySellHolding_orders]
                exact ho

theorem inv_submitLimitOrder (st : AccountState) (sym nm tt : String) (sh lp : ℚ)
    (cur : String) (h : Inv st) : Inv (submitLimitOrder st sym nm tt sh lp cur).2 := by
  obtain ⟨hbp, hh, ho⟩ := h
  unfold submitLimitOrder
  by_cases hv : (pyUpper sym = "" ∨ (¬ pyUpper tt = "BUY" ∧ ¬ pyUpper tt = "SELL") ∨
      sh ≤ 0 ∨ lp ≤ 0)
  · rw [if_pos hv]; exact ⟨hbp, hh, ho⟩
  · rw [if_neg hv]
    have hsh : 0 < sh := lt_of_not_le fun hle => hv (Or.inr (Or.inr (Or.inl hle)))
    have hlp : 0 < lp := lt_of_not_le fun hle => hv (Or.inr (Or.inr (Or.inr hle)))
    have horders : ∀ o ∈ st.orders ++
        [({ oid := st.next_oid, symbol := pyUpper sym, oname := nm,
            trade_type := pyUpper tt, shares := sh, limit_price := lp,
            currency := cur, status := "PENDING", filled := false } : Order)],
        0 < o.shares ∧ 0 < o.limit_price := by
      intro o hm
      rcases List.mem_append.mp hm with h1 | h2
      · exact ho _ h1
      · rcases List.mem_singleton.mp h2 with rfl
        exact ⟨hsh, hlp⟩
    dsimp only
    by_cases htt : pyUpper tt = "BUY"
    · rw [if_pos htt]
      by_cases hf : sh * lp > st.buying_power
      · rw [if_pos hf]; exact ⟨hbp, hh, ho⟩
      · rw [if_neg hf]
        have := le_of_not_lt hf
        exact ⟨by dsimp only; linarith, hh, horders⟩
    · rw [if_neg htt]
      cases hfind : findHolding st (pyUpper sym) with
      | none => exact ⟨hbp, hh, ho⟩
      | some h0 =>
        dsimp only
        by_cases hins : sh > h0.shares
        · rw [if_pos hins]; exact ⟨hbp, hh, ho⟩
        · rw [if_neg hins]
          exact ⟨hbp, hh, horders⟩

theorem inv_cancelLimitOrder (st : AccountState) (oid : ℕ) (h : Inv st) :
    Inv (cancelLimitOrder st oid).2 := by
  obtain ⟨hbp, hh, ho⟩ := h
  unfold cancelLimitOrder
  cases hf : findPendingOrder st oid with
  | none => exact ⟨hbp, hh, ho⟩
  | some o =>
    have hmem := findPendingOrder_mem st oid o hf
    have hop := ho o hmem
    dsimp only
    refine ⟨?_, ?_, ?_⟩
    · by_cases hb : o.trade_type = "BUY"
      · rw [if_pos hb]
        dsimp only [setOrderStatus_buying_power]
        have : 0 ≤ o.shares * o.limit_price := mul_nonneg hop.1.le hop.2.le
        linarith
      · rw [if_neg hb]
        dsimp only [setOrderStatus_buying_power]
        exact hbp
    · by_cases hb : o.trade_type = "BUY"
      · rw [if_pos hb]; exact hh
      · rw [if_neg hb]; exact hh
    · by_cases hb : o.trade_type = "BUY"
      · rw [if_pos hb]
        exact setOrderStatus_orders_pos _ _ _ ho
      · rw [if_neg hb]
        exact setOrderStatus_orders_pos _ _ _ ho

theorem inv_fillLimitOrder (st : AccountState) (oid : ℕ) (cp : ℚ) (h : Inv st) :
    Inv (fillLimitOrder st oid cp).2 := by
  obtain ⟨hbp, hh, ho⟩ := h
  unfold fillLimitOrder
  by_cases hcp : cp ≤ 0
  · rw [if_pos hcp]; exact ⟨hbp, hh, ho⟩
  · rw [if_neg hcp]
    have hcp' : 0 < cp := lt_of_not_le hcp
    cases hf : findPendingOrder st oid with
    | none => exact ⟨hbp, hh, ho⟩
    | some o =>
      have hmem := findPendingOrder_mem st oid o hf
      have hop := ho o hmem
      dsimp only
      by_cases hb1 : o.trade_type = "BUY" ∧ cp > o.limit_price
      · rw [if_pos hb1]; exact ⟨hbp, hh, ho⟩
      · rw [if_neg hb1]
        by_cases hb2 : o.trade_type = "SELL" ∧ cp < o.limit_price
        · rw [if_pos hb2]; exact ⟨hbp, hh, ho⟩
        · rw [if_neg hb2]
          by_cases htt : o.trade_type = "BUY"
          · rw [if_pos htt]
            refine ⟨?_, ?_, ?_⟩
            · by_cases hr : o.shares * cp < o.shares * o.limit_price
              · rw [if_pos hr]
                dsimp only [setOrderFilled_buying_power, recordTrade_buying_power,
                  applyBuyHolding_buying_power]
                have : 0 ≤ o.shares * o.limit_price - o.shares * cp := by linarith
                simp only [recordTrade_buying_power, applyBuyHolding_buying_power]
                linarith
              · rw [if_neg hr]
                simp only [setOrderFilled_buying_power, recordTrade_buying_power,
                  applyBuyHolding_buying_power]
                exact hbp
            · simp only [setOrderFilled_holdings, recordTrade_holdings]
              by_cases hr : o.shares * cp < o.shares * o.limit_price
              · rw [if_pos hr]
                simp only [recordTrade_holdings]
                exact applyBuyHolding_shares_pos _ _ _ _ _ _ hop.1 hh
              · rw [if_neg hr]
                exact applyBuyHolding_shares_pos _ _ _ _ _ _ hop.1 hh
            · apply setOrderFilled_orders_pos
              by_cases hr : o.shares * cp < o.shares * o.limit_price
              · rw [if_pos hr]
                simp only [recordTrade_orders, applyBuyHolding_orders]
                exact ho
              · rw [if_neg hr]
                simp only [recordTrade_orders, applyBuyHolding_orders]
                exact ho
          · rw [if_neg htt]
            cases hfind : findHolding st o.symbol with
            | none =>
              exact ⟨hbp, hh, setOrderStatus_orders_pos _ _ _ ho⟩
            | some h0 =>
              dsimp only
              by_cases hins : o.shares > h0.shares
              · rw [if_pos hins]
                exact ⟨hbp, hh, setOrderStatus_orders_pos _ _ _ ho⟩
              · rw [if_neg hins]
                refine ⟨?_, ?_, ?_⟩
                · simp only [setOrderFilled_buying_power, recordTrade_buying_power,
                    applySellHolding_buying_power]
                  have : 0 ≤ o.shares * cp := mul_nonneg hop.1.le hcp'.le
                  linarith
                · simp only [setOrderFilled_holdings, recordTrade_holdings]
                  exact applySellHolding_shares_pos _ _ _ h0 hfind (le_of_not_lt hins) hh
                · apply setOrderFilled_orders_pos
                  simp only [recordTrade_orders, applySellHolding_orders]
                  exact ho

theorem inv_applyOp (st : AccountState) (op : Op) (h : Inv st) : Inv (applyOp st op) := by
  cases op with
  | market um go sn s n t sh p c => exact inv_executeTrade st um go sn s n t sh p c h
  | submit s n t sh lp c => exact inv_submitLimitOrder st s n t sh lp c h
  | cancel oid => exact inv_cancelLimitOrder st oid h
  | fill oid cp => exact inv_fillLimitOrder st oid cp h

theorem inv_runOps (st : AccountState) (ops : List Op) (h : Inv st) :
    Inv (runOps st ops) := by
  induction ops generalizing st with
  | nil => exact h
  | cons op t ih => exact ih _ (inv_applyOp st op h)

/-! Claim theorems. -/

/-- C1: for every account state reachable from a fresh account (non-negative
starting cash) by any sequence of market BUY/SELL executions, limit-order
submissions, cancellations and fills, the committed state has
`buyingPower ≥ 0` and every persisted holding row has `shares ≥ 0` with no
zero-share row persisting. -/
theorem reachable_no_negative_balances (b : ℚ) (ops : List Op) (hb : 0 ≤ b) :
    0 ≤ (runOps (initState b) ops).buying_power ∧
    ∀ h ∈ (runOps (initState b) ops).holdings, 0 ≤ h.shares ∧ h.shares ≠ 0 := by
  have hInv : Inv (runOps (initState b) ops) := by
    apply inv_runOps
    refine ⟨hb, ?_, ?_⟩
    · intro h hm
      simp [initState] at hm
    · intro o hm
      simp [initState] at hm
  exact ⟨hInv.1, fun h hm => ⟨(hInv.2.1 h hm).le, ne_of_gt (hInv.2.1 h hm)⟩⟩

/-- Witness for C1 at a concrete run: a buy, a limit-order submission, a
cancellation and a fill attempt from a fresh 100000 account. -/
theorem reachable_no_negative_balances_witness :
    (0 : ℚ) ≤ 100000 ∧
    (0 ≤ (runOps (initState 100000)
        [Op.market "US" none mondayOpen "AAPL" "Apple" "BUY" 10 150 "USD",
         Op.submit "AAPL" "Apple" "SELL" 5 120 "USD",
         Op.fill 0 130,
         Op.cancel 0]).buying_power ∧
      ∀ h ∈ (runOps (initState 100000)
        [Op.market "US" none mondayOpen "AAPL" "Apple" "BUY" 10 150 "USD",
         Op.submit "AAPL" "Apple" "SELL" 5 120 "USD",
         Op.fill 0 130,
         Op.cancel 0]).holdings, 0 ≤ h.shares ∧ h.shares ≠ 0) :=
  ⟨by norm_num, reachable_no_negative_balances 100000 _ (by norm_num)⟩

/-- C2: the spec scenario BUY 10 AAPL @ 150, BUY 10 AAPL @ 170,
SELL 15 AAPL @ 180 from a fresh 100000 account produces exactly the stated
cash, holding and trade-log values, and in general buys debit cash by
`shares * price` and merge into the holding by the weighted-average formula
while sells credit cash by `shares * price` and decrement shares leaving
`avgCost` untouched. -/
theorem trade_scenario_weighted_average :
    (c2Buy1.1 = .ok ∧ c2Buy1.2.buying_power = 98500 ∧
      findHolding c2Buy1.2 "AAPL" = some ⟨"AAPL", "Apple", 10, 150, "USD"⟩) ∧
    (c2Buy2.2.buying_power = 96800 ∧
      findHolding c2Buy2.2 "AAPL" = some ⟨"AAPL", "Apple", 20, 160, "USD"⟩) ∧
    (c2Sell.2.buying_power = 99500 ∧
      findHolding c2Sell.2 "AAPL" = some ⟨"AAPL", "Apple", 5, 160, "USD"⟩ ∧
      c2Sell.2.trades.getLast? =
        some ⟨"AAPL", "Apple", "SELL", 15, 180, 2700, "USD"⟩) ∧
    (∀ st (sym nm cur : String) (sh pr : ℚ) (h : Holding),
      findHolding st sym = some h →
      findHolding (applyBuyHolding st sym nm sh pr cur) sym =
        some { h with avg_cost := (h.shares * h.avg_cost + sh * pr) / (h.shares + sh),
                      shares := h.shares + sh }) ∧
    (∀ st (sym : String) (sh : ℚ) (h : Holding),
      findHolding st sym = some h → ¬ h.shares - sh = 0 →
      findHolding (applySellHolding st sym sh) sym =
        some { h with shares := h.shares - sh }) ∧
    (∀ st (um : String) (go : Option MarketStatus) (sn : LocalDT)
      (sym nm cur : String) (sh pr : ℚ),
      (executeTrade st um go sn sym nm "BUY" sh pr cur).1 = .ok →
      (executeTrade st um go sn sym nm "BUY" sh pr cur).2.buying_power =
        st.buying_power - sh * pr) ∧
    (∀ st (um : String) (go : Option MarketStatus) (sn : LocalDT)
      (sym nm cur : String) (sh pr : ℚ),
      (executeTrade st um go sn sym nm "SELL" sh pr cur).1 = .ok →
      (executeTrade st um go sn sym nm "SELL" sh pr cur).2.buying_power =
        st.buying_power + sh * pr) := by
  refine ⟨?_, ?_, ?_, ?_, ?_, ?_, ?_⟩
  · rw [c2Buy1_eval]
    refine ⟨rfl, rfl, by decide⟩
  · rw [c2Buy2_eval]
    refine ⟨rfl, by decide⟩
  · rw [c2Sell_eval]
    refine ⟨rfl, by decide, by decide⟩
  · intro st sym nm cur sh pr h hf
    exact findHolding_applyBuyHolding st sym nm sh pr cur h hf
  · intro st sym sh h hf hne
    exact findHolding_applySellHolding st sym sh h hf hne
  · intro st um go sn sym nm cur sh pr hok
    unfold executeTrade at hok ⊢
    rw [pyUpper_BUY] at hok ⊢
    by_cases hv : (pyUpper sym = "" ∨ (¬ ("BUY" : String) = "BUY" ∧
        ¬ ("BUY" : String) = "SELL") ∨ sh ≤ 0 ∨ pr ≤ 0)
    · rw [if_pos hv] at hok; simp at hok
    · rw [if_neg hv] at hok ⊢
      by_cases hg : ¬ (is_market_open um (pyUpper sym) none sn go).is_open = true
      · rw [if_pos hg] at hok; simp at hok
      · rw [if_neg hg] at hok ⊢
        by_cases hm : (("BUY" : String) = "BUY" ∧
            ¬ (is_symbol_valid_for_market (pyUpper sym) um).1 = true)
        · rw [if_pos hm] at hok; simp at hok
        · rw [if_neg hm] at hok ⊢
          dsimp only at hok ⊢
          rw [if_pos (rfl : ("BUY" : String) = "BUY")] at hok ⊢
          by_cases hf : sh * pr > st.buying_power
          · rw [if_pos hf] at hok; simp at hok
          · rw [if_neg hf]
            simp only [recordTrade_buying_power, applyBuyHolding_buying_power]
  · intro st um go sn sym nm cur sh pr hok
    unfold executeTrade at hok ⊢
    rw [pyUpper_SELL] at hok ⊢
    by_cases hv : (pyUpper sym = "" ∨ (¬ ("SELL" : String) = "BUY" ∧
        ¬ ("SELL" : String) = "SELL") ∨ sh ≤ 0 ∨ pr ≤ 0)
    · rw [if_pos hv] at hok; simp at hok
    · rw [if_neg hv] at hok ⊢
      by_cases hg : ¬ (is_market_open um (pyUpper sym) none sn go).is_open = true
      · rw [if_pos hg] at hok; simp at hok
      · rw [if_neg hg] at hok ⊢
        by_cases hm : (("SELL" : String) = "BUY" ∧
            ¬ (is_symbol_valid_for_market (pyUpper sym) um).1 = true)
        · rw [if_pos hm] at hok; simp at hok
        · rw [if_neg hm] at hok ⊢
          dsimp only at hok ⊢
          rw [if_neg (by decide : ¬ ("SELL" : String) = "BUY")] at hok ⊢
          cases hfind : findHolding st (pyUpper sym) with
          | none =>
            rw [hfind] at hok
            simp at hok
          | some h0 =>
            rw [hfind] at hok
            dsimp only at hok ⊢
            by_cases hins : sh > h0.shares
            · rw [if_pos hins] at hok; simp at hok
            · rw [if_neg hins]
              simp only [recordTrade_buying_power, applySellHolding_buying_power]

/-- Witness for C2: each hypothesised component of the theorem instantiated
on the scenario states. -/
theorem trade_scenario_weighted_average_witness :
    (findHolding (applyBuyHolding c2Buy1.2 "AAPL" "Apple" 10 170 "USD") "AAPL" =
      some { (⟨"AAPL", "Apple", 10, 150, "USD"⟩ : Holding) with
             avg_cost := ((10 : ℚ) * 150 + 10 * 170) / (10 + 10),
             shares := (10 : ℚ) + 10 }) ∧
    (findHolding (applySellHolding c2Buy2.2 "AAPL" 15) "AAPL" =
      some { (⟨"AAPL", "Apple", 20, 160, "USD"⟩ : Holding) with
             shares := (20 : ℚ) - 15 }) ∧
    ((executeTrade (initState 100000) "US" none mondayOpen "AAPL" "Apple" "BUY"
        10 150 "USD").2.buying_power = 100000 - 10 * 150) ∧
    ((executeTrade c2Buy2.2 "US" none mondayOpen "AAPL" "Apple" "SELL"
        15 180 "USD").2.buying_power = c2Buy2.2.buying_power + 15 * 180) := by
  refine ⟨?_, ?_, ?_, ?_⟩
  · exact trade_scenario_weighted_average.2.2.2.1 c2Buy1.2 "AAPL" "Apple" "USD" 10 170
      ⟨"AAPL", "Apple", 10, 150, "USD"⟩ (by rw [c2Buy1_eval]; decide)
  · exact trade_scenario_weighted_average.2.2.2.2.1 c2Buy2.2 "AAPL" 15
      ⟨"AAPL", "Apple", 20, 160, "USD"⟩ (by rw [c2Buy2_eval]; decide) (by norm_num)
  · exact trade_scenario_weighted_average.2.2.2.2.2.1 (initState 100000) "US" none
      mondayOpen "AAPL" "Apple" "USD" 10 150 (by rw [show executeTrade (initState 100000)
        "US" none mondayOpen "AAPL" "Apple" "BUY" 10 150 "USD" = c2Buy1 from rfl,
        c2Buy1_eval])
  · exact trade_scenario_weighted_average.2.2.2.2.2.2 c2Buy2.2 "US" none
      mondayOpen "AAPL" "Apple" "USD" 15 180 (by rw [show executeTrade c2Buy2.2
        "US" none mondayOpen "AAPL" "Apple" "SELL" 15 180 "USD" = c2Sell from rfl,
        c2Sell_eval])

theorem findHolding_deleteHolding (st : AccountState) (sym : String) :
    findHolding (deleteHolding st sym) sym = none := by
  apply List.find?_eq_none.mpr
  intro x hx
  have hq := (List.mem_filter.mp hx).2
  simp at hq ⊢
  exact hq

/-- C3 (amended): filling a PENDING SELL limit order whose price condition
holds re-verifies share availability at fill time.  A missing holding
cancels the order and fails with the no-holdings error; an undersized
holding cancels the order and fails with the insufficient-shares error; in
both cases buying power and holdings are untouched.  Otherwise the fill
succeeds, credits `shares * currentPrice` to buying power and decrements
the holding (deleting it when it reaches zero). -/
theorem fill_sell_reverifies_shares (st : AccountState) (oid : ℕ) (cp : ℚ) (o : Order)
    (hf : findPendingOrder st oid = some o)
    (hsell : o.trade_type = "SELL")
    (hcp : 0 < cp)
    (hpc : o.limit_price ≤ cp) :
    (findHolding st o.symbol = none →
      fillLimitOrder st oid cp =
        (.err (.noHoldings o.symbol), setOrderStatus st oid "CANCELLED") ∧
      (fillLimitOrder st oid cp).2.buying_power = st.buying_power ∧
      (fillLimitOrder st oid cp).2.holdings = st.holdings) ∧
    (∀ h : Holding, findHolding st o.symbol = some h → h.shares < o.shares →
      fillLimitOrder st oid cp =
        (.err .insufficientShares, setOrderStatus st oid "CANCELLED") ∧
      (fillLimitOrder st oid cp).2.buying_power = st.buying_power ∧
      (fillLimitOrder st oid cp).2.holdings = st.holdings) ∧
    (∀ h : Holding, findHolding st o.symbol = some h → o.shares ≤ h.shares →
      (fillLimitOrder st oid cp).1 = .ok ∧
      (fillLimitOrder st oid cp).2.buying_power =
        st.buying_power + o.shares * cp ∧
      findHolding (fillLimitOrder st oid cp).2 o.symbol =
        (if h.shares - o.shares = 0 then none
         else some { h with shares := h.shares - o.shares })) := by
  have hred : fillLimitOrder st oid cp =
      match findHolding st o.symbol with
      | none => (.err (.noHoldings o.symbol), setOrderStatus st oid "CANCELLED")
      | some h =>
        if o.shares > h.shares then
          (.err .insufficientShares, setOrderStatus st oid "CANCELLED")
        else
          (.ok, setOrderFilled (recordTrade (applySellHolding
              { st with buying_power := st.buying_power + o.shares * cp }
              o.symbol o.shares) o.symbol o.oname o.trade_type o.shares cp
              o.currency) oid) := by
    unfold fillLimitOrder
    rw [if_neg (not_le.mpr hcp), hf]
    dsimp only
    rw [if_neg (fun hb : o.trade_type = "BUY" ∧ cp > o.limit_price => by
      rw [hsell] at hb; exact absurd hb.1 (by decide))]
    rw [if_neg (fun hb : o.trade_type = "SELL" ∧ cp < o.limit_price =>
      absurd hb.2 (not_lt.mpr hpc))]
    rw [if_neg (fun hb : o.trade_type = "BUY" => by
      rw [hsell] at hb; exact absurd hb (by decide))]
  refine ⟨?_, ?_, ?_⟩
  · intro hnone
    rw [hred, hnone]
    exact ⟨rfl, rfl, rfl⟩
  · intro h hfh hlt
    rw [hred, hfh]
    dsimp only
    rw [if_pos hlt]
    exact ⟨rfl, rfl, rfl⟩
  · intro h hfh hle
    rw [hred, hfh]
    dsimp only
    rw [if_neg (not_lt.mpr hle)]
    refine ⟨rfl, ?_, ?_⟩
    · simp only [setOrderFilled_buying_power, recordTrade_buying_power,
        applySellHolding_buying_power]
    have hbase : findHolding (setOrderFilled (recordTrade (applySellHolding
        { st with buying_power := st.buying_power + o.shares * cp }
        o.symbol o.shares) o.symbol o.oname o.trade_type o.shares cp
        o.currency) oid) o.symbol =
        findHolding (applySellHolding
          { st with buying_power := st.buying_power + o.shares * cp }
          o.symbol o.shares) o.symbol := rfl
    rw [hbase]
    by_cases hz : h.shares - o.shares = 0
    · rw [if_pos hz]
      have : applySellHolding
          { st with buying_power := st.buying_power + o.shares * cp }
          o.symbol o.shares =
          deleteHolding { st with buying_power := st.buying_power + o.shares * cp }
            o.symbol := by
        unfold applySellHolding
        rw [show findHolding { st with buying_power := st.buying_power + o.shares * cp }
          o.symbol = some h from hfh]
        dsimp only
        rw [if_pos hz]
      rw [this]
      exact findHolding_deleteHolding _ _
    · rw [if_neg hz]
      exact findHolding_applySellHolding _ _ _ h hfh hz

/-- C3 counterexample: at `raceSellState` the pending SELL order's holding
is missing; the fill at a satisfying price cancels the order but fails with
the no-holdings error, not with the insufficient-shares error named by the
claim. -/
theorem fill_sell_reverifies_shares_counterexample :
    findPendingOrder raceSellState 0 =
      some ⟨0, "AAPL", "Apple", "SELL", 5, 100, "USD", "PENDING", false⟩ ∧
    findHolding raceSellState "AAPL" = none ∧
    (100 : ℚ) ≤ 120 ∧
    (fillLimitOrder raceSellState 0 120).1 = .err (.noHoldings "AAPL") ∧
    (fillLimitOrder raceSellState 0 120).1 ≠ .err .insufficientShares :=
  ⟨by decide, by decide, by decide, by decide, by decide⟩

/-- Witness for C3 at `raceSellState`: the missing-holding branch. -/
theorem fill_sell_reverifies_shares_witness :
    fillLimitOrder raceSellState 0 120 =
      (.err (.noHoldings "AAPL"), setOrderStatus raceSellState 0 "CANCELLED") ∧
    (fillLimitOrder raceSellState 0 120).2.buying_power =
      raceSellState.buying_power ∧
    (fillLimitOrder raceSellState 0 120).2.holdings = raceSellState.holdings :=
  (fill_sell_reverifies_shares raceSellState 0 120
    ⟨0, "AAPL", "Apple", "SELL", 5, 100, "USD", "PENDING", false⟩
    (by decide) rfl (by decide) (by decide)).1 (by decide)

/-- C4 (amended): a fill request with a positive `currentPrice` violating
the limit condition fails with the price-condition error, leaves the order
PENDING (not cancelled) and performs zero ledger mutation; a non-positive
`currentPrice` is instead rejected up front as an invalid parameter,
likewise with zero mutation. -/
theorem fill_price_violation_no_mutation (st : AccountState) (oid : ℕ) (cp : ℚ)
    (o : Order) (hf : findPendingOrder st oid = some o)
    (hviol : (o.trade_type = "BUY" ∧ o.limit_price < cp) ∨
             (o.trade_type = "SELL" ∧ cp < o.limit_price)) :
    (0 < cp →
      fillLimitOrder st oid cp = (.err (.priceConditionNotMet o.trade_type), st) ∧
      findPendingOrder (fillLimitOrder st oid cp).2 oid = some o) ∧
    (cp ≤ 0 → fillLimitOrder st oid cp = (.err .invalidPrice, st)) := by
  constructor
  · intro hcp
    have hkey : fillLimitOrder st oid cp =
        (.err (.priceConditionNotMet o.trade_type), st) := by
      unfold fillLimitOrder
      rw [if_neg (not_le.mpr hcp), hf]
      dsimp only
      rcases hviol with ⟨hb, hlt⟩ | ⟨hs, hlt⟩
      · rw [if_pos ⟨hb, hlt⟩, hb]
      · rw [if_neg (fun hx : o.trade_type = "BUY" ∧ cp > o.limit_price => by
          rw [hs] at hx; exact absurd hx.1 (by decide))]
        rw [if_pos ⟨hs, hlt⟩, hs]
    refine ⟨hkey, ?_⟩
    rw [hkey]
    exact hf
  · intro hcp
    unfold fillLimitOrder
    rw [if_pos hcp]

/-- C4 counterexample: a caller-supplied `currentPrice = 0` violates the
SELL limit condition (`0 < 100`) yet the fill fails with the invalid-price
rejection, not with the price-condition error named by the claim (the order
does stay PENDING and the state is unchanged). -/
theorem fill_price_violation_counterexample :
    findPendingOrder raceSellState 0 =
      some ⟨0, "AAPL", "Apple", "SELL", 5, 100, "USD", "PENDING", false⟩ ∧
    (0 : ℚ) < 100 ∧
    (fillLimitOrder raceSellState 0 0).1 = .err .invalidPrice ∧
    (fillLimitOrder raceSellState 0 0).1 ≠ .err (.priceConditionNotMet "SELL") ∧
    (fillLimitOrder raceSellState 0 0).2 = raceSellState :=
  ⟨by decide, by decide, by decide, by decide, by decide⟩

/-- Witness for C4: a fill of the pending SELL order (limit 100) at the
violating positive price 50 is rejected with the price-condition error and
the order remains PENDING. -/
theorem fill_price_violation_witness :
    fillLimitOrder raceSellState 0 50 =
      (.err (.priceConditionNotMet "SELL"), raceSellState) ∧
    findPendingOrder (fillLimitOrder raceSellState 0 50).2 0 =
      some ⟨0, "AAPL", "Apple", "SELL", 5, 100, "USD", "PENDING", false⟩ :=
  (fill_price_violation_no_mutation raceSellState 0 50
    ⟨0, "AAPL", "Apple", "SELL", 5, 100, "USD", "PENDING", false⟩
    (by decide) (Or.inr ⟨rfl, by decide⟩)).1 (by decide)

/-- C5: a CANCELLED or FILLED limit order can never transition again —
cancel answers order-not-found and fill leaves the whole account state
unchanged — and cancelling a PENDING BUY order credits back exactly
`shares * limitPrice`, the amount reserved at submission, independent of
any market price. -/
theorem order_lifecycle_terminal (st : AccountState) (oid : ℕ) (cp : ℚ) :
    ((∀ o ∈ st.orders, o.oid = oid → o.status = "CANCELLED" ∨ o.status = "FILLED") →
      cancelLimitOrder st oid = (.err .orderNotFound, st) ∧
      (fillLimitOrder st oid cp).2 = st ∧
      (fillLimitOrder st oid cp).1 ≠ .ok) ∧
    (∀ o : Order, findPendingOrder st oid = some o → o.trade_type = "BUY" →
      (cancelLimitOrder st oid).1 = .ok ∧
      (cancelLimitOrder st oid).2.buying_power =
        st.buying_power + o.shares * o.limit_price ∧
      (cancelLimitOrder st oid).2.holdings = st.holdings ∧
      (cancelLimitOrder st oid).2.orders =
        st.orders.map (fun x => if x.oid = oid then { x with status := "CANCELLED" }
          else x)) := by
  constructor
  · intro hterm
    have hnone : findPendingOrder st oid = none := by
      apply List.find?_eq_none.mpr
      intro x hx
      simp only [decide_eq_true_eq, not_and]
      intro h1 h2
      rcases hterm x hx h1 with hc | hc <;> rw [hc] at h2 <;> exact absurd h2 (by decide)
    refine ⟨?_, ?_, ?_⟩
    · unfold cancelLimitOrder
      rw [hnone]
    · unfold fillLimitOrder
      by_cases hcp : cp ≤ 0
      · rw [if_pos hcp]
      · rw [if_neg hcp, hnone]
    · unfold fillLimitOrder
      by_cases hcp : cp ≤ 0
      · rw [if_pos hcp]; simp
      · rw [if_neg hcp, hnone]; simp
  · intro o hf hbuy
    unfold cancelLimitOrder
    rw [hf]
    dsimp only
    rw [if_pos hbuy]
    exact ⟨rfl, rfl, rfl, rfl⟩

/-- Witness for C5 at `termOrdersState`: the FILLED order (id 0) admits no
transition, and cancelling the PENDING BUY order (id 1) credits exactly
`4 * 25`. -/
theorem order_lifecycle_terminal_witness :
    (cancelLimitOrder termOrdersState 0 = (.err .orderNotFound, termOrdersState) ∧
      (fillLimitOrder termOrdersState 0 7).2 = termOrdersState ∧
      (fillLimitOrder termOrdersState 0 7).1 ≠ .ok) ∧
    ((cancelLimitOrder termOrdersState 1).2.buying_power =
      termOrdersState.buying_power + 4 * 25) :=
  ⟨(order_lifecycle_terminal termOrdersState 0 7).1 (by decide),
   ((order_lifecycle_terminal termOrdersState 1 7).2
     ⟨1, "MSFT", "Microsoft", "BUY", 4, 25, "USD", "PENDING", false⟩
     (by decide) rfl).2.1⟩

/-- C6 (amended): in a transfer passing all validations, a failure of the
sender-to-recipient conversion call is a hard failure — the request is
rejected with a conversion error and nothing is mutated — while a failure of
the USD-equivalent record-keeping conversion only degrades record-keeping:
the sender amount is recorded as already USD and the transfer completes,
debiting the sender, crediting the recipient and appending a Transfer
record. -/
theorem transfer_oracle_degradation (st : TransferState) (su tu : String)
    (amount : ℚ) (sc rc : String) (c2 : Option ℚ)
    (hpos : 0 < amount) (htu : ¬ tu = "") (hne : ¬ su = tu)
    (hbp : amount ≤ st.sender_bp) :
    (transferFunds st su tu amount true true sc rc none c2 =
      (.err .conversionFailed, st)) ∧
    (∀ r : ℚ, transferFunds st su tu amount true true sc rc (some r) none =
      (.ok, { sender_bp := st.sender_bp - amount,
              recipient_bp := st.recipient_bp + r,
              transfers := st.transfers ++
                [{ amount := amount, display_amount := amount, currency := sc,
                   recipient_currency := rc,
                   recipient_display_amount := r }] })) := by
  have hred : ∀ c1 : Option ℚ, ∀ c2x : Option ℚ,
      transferFunds st su tu amount true true sc rc c1 c2x =
      (match c1 with
       | none => (.err .conversionFailed, st)
       | some r =>
         (.ok, { sender_bp := st.sender_bp - amount,
                 recipient_bp := st.recipient_bp + r,
                 transfers := st.transfers ++
                   [{ amount := c2x.getD amount, display_amount := amount,
                      currency := sc, recipient_currency := rc,
                      recipient_display_amount := r }] })) := by
    intro c1 c2x
    unfold transferFunds
    rw [if_neg (not_le.mpr hpos), if_neg htu, if_neg hne,
      if_neg (by simp : ¬ ¬ (true : Bool) = true),
      if_neg (by simp : ¬ ¬ (true : Bool) = true),
      if_neg (not_lt.mpr hbp)]
  exact ⟨hred none c2, fun r => hred (some r) none⟩

/-- C6 counterexample: with the exchange-rate oracle failing (both
conversion calls raise), a transfer that passes every validation is
rejected outright — the sender is not debited, the recipient is not
credited, and no Transfer record is appended — contradicting the claim
that an oracle failure still lets the transfer complete. -/
theorem transfer_oracle_degradation_counterexample :
    (0 : ℚ) < 40 ∧ (40 : ℚ) ≤ transferState0.sender_bp ∧
    transferFunds transferState0 "alice" "bob" 40 true true "EUR" "USD"
      none none = (.err .conversionFailed, transferState0) ∧
    (transferFunds transferState0 "alice" "bob" 40 true true "EUR" "USD"
      none none).2.transfers = [] :=
  ⟨by decide, by decide, by decide, by decide⟩

/-- Witness for C6 at `transferState0`: the hard-failure branch and the
degraded record-keeping branch. -/
theorem transfer_oracle_degradation_witness :
    (transferFunds transferState0 "alice" "bob" 40 true true "EUR" "USD"
      none none = (.err .conversionFailed, transferState0)) ∧
    (transferFunds transferState0 "alice" "bob" 40 true true "EUR" "USD"
      (some 43) none =
      (.ok, { sender_bp := transferState0.sender_bp - 40,
              recipient_bp := transferState0.recipient_bp + 43,
              transfers := transferState0.transfers ++
                [{ amount := 40, display_amount := 40, currency := "EUR",
                   recipient_currency := "USD",
                   recipient_display_amount := 43 }] })) :=
  ⟨(transfer_oracle_degradation transferState0 "alice" "bob" 40 "EUR" "USD"
      none (by decide) (by decide) (by decide) (by decide)).1,
   (transfer_oracle_degradation transferState0 "alice" "bob" 40 "EUR" "USD"
      none (by decide) (by decide) (by decide) (by decide)).2 43⟩

/-- C7: when an explicit `now` is supplied, the status oracle is skipped
and the schedule fallback decides alone; for any `now` on a Saturday or
Sunday in the market's local timezone, market `US` and a non-crypto symbol,
the gate answers closed with source `schedule`, whatever the oracle says. -/
theorem market_gate_weekend_schedule (symbol : String) (nowL sysNow : LocalDT)
    (oracle : Option MarketStatus)
    (hnc : isCryptoSymbol symbol = false)
    (hwk : nowL.weekday = 5 ∨ nowL.weekday = 6) :
    is_market_open "US" symbol (some nowL) sysNow oracle =
      { is_open := false,
        reason := "US (NYSE) is closed on weekends. Trading hours: 9:30 AM - 4:00 PM ET, Mon-Fri.",
        market_name := "US (NYSE)", display_hours := "9:30 AM - 4:00 PM ET",
        holiday := none, source := "schedule" } := by
  have h5 : 5 ≤ nowL.weekday := by rcases hwk with h | h <;> omega
  unfold is_market_open
  simp only [hnc, Bool.false_eq_true, if_false]
  unfold isMarketOpenSchedule marketSchedule
  rw [if_neg (by decide : ¬ ("US" : String) = "IN")]
  rw [if_pos h5]
  decide

/-- Witness for C7: a Saturday noon with an oracle claiming the market is
open; the gate still answers closed from the schedule. -/
theorem market_gate_weekend_schedule_witness :
    isCryptoSymbol "AAPL" = false ∧
    is_market_open "US" "AAPL" (some saturdayNoon) mondayOpen
      (some ⟨true, none, "regular"⟩) =
      { is_open := false,
        reason := "US (NYSE) is closed on weekends. Trading hours: 9:30 AM - 4:00 PM ET, Mon-Fri.",
        market_name := "US (NYSE)", display_hours := "9:30 AM - 4:00 PM ET",
        holiday := none, source := "schedule" } :=
  ⟨by decide,
   market_gate_weekend_schedule "AAPL" saturdayNoon mondayOpen
     (some ⟨true, none, "regular"⟩) (by decide) (Or.inl (by decide))⟩

/-- C8: the per-trade XP award decomposes as a base part plus the milestone
bonus, where the milestone bonus is paid exactly at 5 and exactly at 10
distinct holdings — counts 6 and 11 award nothing. -/
theorem xp_milestones_exact_equality (tc hc : ℕ) (tt : String)
    (sp abp : Option ℚ) :
    award_trade_xp tc hc tt sp abp =
      award_trade_xp tc 0 tt sp abp + milestoneBonus hc ∧
    milestoneBonus 5 = 150 ∧ milestoneBonus 10 = 250 ∧
    milestoneBonus 6 = 0 ∧ milestoneBonus 11 = 0 := by
  refine ⟨?_, rfl, rfl, rfl, rfl⟩
  unfold award_trade_xp milestoneBonus
  dsimp only
  norm_num

/-- C9: the achievement check is idempotent — a second invocation on the
state left by the first (no other change) unlocks nothing and inserts no
row, because already-unlocked and special achievements are excluded from
the scan and inserts are insert-if-absent. -/
theorem achievements_check_idempotent (st : GamState) :
    (check_achievements (check_achievements st).2).1 = [] ∧
    (check_achievements (check_achievements st).2).2 = (check_achievements st).2 := by
  have hcount : ∀ rt, countFor (check_achievements st).2 rt = countFor st rt :=
    fun rt => rfl
  have hach : (check_achievements st).2.achievements = st.achievements := rfl
  have hunl : (check_achievements st).2.unlocked = st.unlocked ++
      ((achievementCandidates st).filter
        (fun a => decide (a.requirement_value ≤
          countFor st a.requirement_type))).map (fun a => a.aid) := rfl
  have hnil : (achievementCandidates (check_achievements st).2).filter
      (fun a => decide (a.requirement_value ≤
        countFor (check_achievements st).2 a.requirement_type)) = [] := by
    apply List.filter_eq_nil_iff.mpr
    intro a ha
    simp only [decide_eq_true_eq]
    intro hmeets
    rw [hcount] at hmeets
    have hmem := List.mem_filter.mp ha
    have hprops := hmem.2
    simp only [decide_eq_true_eq] at hprops
    rw [hunl] at hprops
    obtain ⟨hnotin, hns⟩ := hprops
    have hcand : a ∈ achievementCandidates st := by
      apply List.mem_filter.mpr
      refine ⟨hmem.1, ?_⟩
      simp only [decide_eq_true_eq]
      exact ⟨fun hin => hnotin (List.mem_append.mpr (Or.inl hin)), hns⟩
    have hinN : a ∈ (achievementCandidates st).filter
        (fun a => decide (a.requirement_value ≤
          countFor st a.requirement_type)) := by
      apply List.mem_filter.mpr
      exact ⟨hcand, by simp only [decide_eq_true_eq]; exact hmeets⟩
    exact hnotin (List.mem_append.mpr (Or.inr (List.mem_map_of_mem _ hinN)))
  constructor
  · exact hnil
  · show ({ (check_achievements st).2 with
      unlocked := (check_achievements st).2.unlocked ++
        ((achievementCandidates (check_achievements st).2).filter
          (fun a => decide (a.requirement_value ≤
            countFor (check_achievements st).2 a.requirement_type))).map
              (fun a => a.aid) } : GamState) = (check_achievements st).2
    rw [hnil]
    simp

/-- C10: crypto detection is by substring containment, not suffix — any
symbol whose uppercased form contains `-USD` anywhere makes the market gate
answer open with source `local` for every market, caller time, clock and
oracle, and makes the symbol-market validator accept with an empty error
for every market. -/
theorem crypto_substring_always_open (symbol market : String)
    (now : Option LocalDT) (sysNow : LocalDT) (oracle : Option MarketStatus)
    (hc : "-USD".data <:+: (pyUpper symbol).data) :
    is_market_open market symbol now sysNow oracle =
      { is_open := true, reason := "Crypto markets are always open",
        market_name := "Crypto", display_hours := "24/7",
        holiday := none, source := "local" } ∧
    is_symbol_valid_for_market symbol market = (true, "") := by
  have hb : isCryptoSymbol symbol = true := by
    unfold isCryptoSymbol pyContains
    exact decide_eq_true hc
  constructor
  · unfold is_market_open
    rw [if_pos hb]
  · unfold is_symbol_valid_for_market
    dsimp only
    rw [if_pos hb]

/-- Witness for C10 at the symbol `X-USDT`, which contains `-USD` without
ending in it, under market `IN`. -/
theorem crypto_substring_always_open_witness :
    "-USD".data <:+: (pyUpper "X-USDT").data ∧
    pyEndsWith (pyUpper "X-USDT") "-USD" = false ∧
    is_market_open "IN" "X-USDT" none saturdayNoon none =
      { is_open := true, reason := "Crypto markets are always open",
        market_name := "Crypto", display_hours := "24/7",
        holiday := none, source := "local" } ∧
    is_symbol_valid_for_market "X-USDT" "IN" = (true, "") :=
  ⟨by decide, by decide,
   (crypto_substring_always_open "X-USDT" "IN" none saturdayNoon none
     (by decide)).1,
   (crypto_substring_always_open "X-USDT" "IN" none saturdayNoon none
     (by decide)).2⟩

end Papertrade
